import Mathlib

/-!
Shallow embedding of the gfetch ref-sync / staleness / pruning core
(package `gsync` plus the pattern matcher from `pkg/config`).

Go strings are Lean `String`s, commit timestamps are `Int` (Unix-style
instants; Go's `time.Time.Before` is `<`), commit hashes are `Nat`,
Go maps keyed by strings are association lists read through
`List.lookup` (a fresh binding is consed on the front, so lookup sees
the newest binding, matching Go map assignment), and fallible git
operations are `Option`/`Except` values.  Logging and metrics calls
are dropped: they do not affect the data flow.
-/

namespace Gfetch

/-! ## Pattern matcher (src/pkg/config/config.go) -/

/-- Type `Pattern` from `pkg/config/config.go`: the raw spec text plus the
compiled regex.  Go's `*regexp.Regexp` is abstracted as the matching
function `String → Bool` it denotes (`nil` becomes `none`). -/
structure Pattern where
  raw : String
  compiled : Option (String → Bool)

/-- Model of `Pattern.IsRegex`: the raw text is slash-delimited and longer than two
characters (`strings.HasPrefix(p.Raw, "/") && strings.HasSuffix(p.Raw, "/") && len(p.Raw) > 2`). -/
def Pattern.IsRegex (p : Pattern) : Bool :=
  "/".data.isPrefixOf p.raw.data && "/".data.isSuffixOf p.raw.data && decide (p.raw.length > 2)

/-- Model of `Pattern.Matches`: `"*"` matches anything; a slash-delimited pattern
matches through its compiled regex (and matches nothing when the regex
was never compiled); anything else is a literal string compare. -/
def Pattern.Matches (p : Pattern) (name : String) : Bool :=
  if p.raw = "*" then
    true
  else if p.IsRegex then
    match p.compiled with
    | some re => re name
    | none => false
  else
    p.raw == name

/-- Model of `matchesAny` / `MatchesAny`: true iff any pattern matches. -/
def MatchesAny (name : String) (patterns : List Pattern) : Bool :=
  patterns.any (fun p => p.Matches name)

/-! ## OpenVox name sanitization and collision detection
(`SanitizeName`, `detectCollisions` in the openvox part of `pkg/gsync`) -/

/-- The per-rune body of `SanitizeName`'s `strings.Map`: characters in
`[a-zA-Z0-9_]` are kept, everything else becomes `'_'`. -/
def sanitizeChar (c : Char) : Char :=
  if ('a' ≤ c && c ≤ 'z') || ('A' ≤ c && c ≤ 'Z') || ('0' ≤ c && c ≤ '9') || c == '_' then
    c
  else
    '_'

/-- Model of `SanitizeName`: `strings.Map(sanitizeChar, name)`. -/
def SanitizeName (name : String) : String :=
  String.mk (name.data.map sanitizeChar)

/-- The message built by `detectCollisions` on a collision
(`fmt.Sprintf("%q and %q both sanitize to %q", existing, name, sanitized)`;
`%q`'s escaping of exotic characters is simplified to plain quoting,
which keeps the message nonempty exactly as in the source). -/
def collisionMsg (existing name sanitized : String) : String :=
  "\"" ++ existing ++ "\" and \"" ++ name ++ "\" both sanitize to \"" ++ sanitized ++ "\""

/-- Model of `detectCollisions`: walk the names, report the first name whose
sanitized form is already bound to a *different* original, otherwise
(re)bind it and continue.  The Go version mutates the shared
`sanitizedToOriginal` map, so the model returns the updated map
alongside the message (`""` means no collision). -/
def detectCollisions (names : List String) (sanitizedToOriginal : List (String × String)) :
    String × List (String × String) :=
  match names with
  | [] => ("", sanitizedToOriginal)
  | name :: rest =>
    let sanitized := SanitizeName name
    match List.lookup sanitized sanitizedToOriginal with
    | some existing =>
      if existing ≠ name then
        (collisionMsg existing name sanitized, sanitizedToOriginal)
      else
        detectCollisions rest ((sanitized, name) :: sanitizedToOriginal)
    | none =>
      detectCollisions rest ((sanitized, name) :: sanitizedToOriginal)

/-- The map state after processing a list of names the way
`detectCollisions` does on its non-colliding path: each name is bound
under its sanitized key (used to state the collision
characterization). -/
def processNames (names : List String) (m : List (String × String)) : List (String × String) :=
  names.foldl (fun acc n => (SanitizeName n, n) :: acc) m

/-! ## Staleness evaluator (`checkStaleness`, `IsStale` in `pkg/gsync`) -/

/-- Model of `checkStaleness`: tier 1 reads the committer timestamp of the
locally-present commit (`localCommitTime = some t`); tier 2 falls back
to a depth-1 fetch whose outcome is `fetchResult` — a transport error,
a fetch that still leaves the commit unreadable (`ok none`,
"getting commit after fetch"), or the fetched commit's timestamp.
Staleness is `time.Since(commit.Committer.When) > age`, i.e.
`now - t > age`. -/
def checkStaleness (localCommitTime : Option Int) (fetchResult : Except String (Option Int))
    (now age : Int) : Except String Bool :=
  match localCommitTime with
  | some t => .ok (now - t > age)
  | none =>
    match fetchResult with
    | .error e => .error ("fetching depth 1 for stale check: " ++ e)
    | .ok none => .error "getting commit after fetch"
    | .ok (some t) => .ok (now - t > age)

/-- Model of `IsStale`: wraps `checkStaleness`; an evaluation error yields
`false` ("syncing anyway"), otherwise the staleness verdict is passed
through. -/
def IsStale (localCommitTime : Option Int) (fetchResult : Except String (Option Int))
    (now age : Int) : Bool :=
  match checkStaleness localCommitTime fetchResult now age with
  | .error _ => false
  | .ok stale => stale

/-- The pre-sync skip condition in the branch loops of `syncBranches`
and `syncOpenVoxBranches`:
`opts.PruneStale && opts.Prune && IsStale(...)`. -/
def staleSkipCond (pruneStale prune staleVerdict : Bool) : Bool :=
  pruneStale && prune && staleVerdict

/-! ## Ref synchronizer (`syncBranch` in `pkg/gsync`) -/

/-- Local ref storage: branch heads and remote-tracking refs, each an
association list from short branch name to commit hash. -/
structure RepoState where
  heads : List (String × Nat)
  remotes : List (String × Nat)
deriving DecidableEq

/-- Model of `Storer.SetReference`: bind `name` to hash `h`, replacing any
previous binding. -/
def setRef (refs : List (String × Nat)) (name : String) (h : Nat) : List (String × Nat) :=
  (name, h) :: refs.filter (fun p => !(p.1 == name))

/-- Model of `syncBranch`: force-fetch `refs/heads/<branch>` into the
remote-tracking ref, then compare the local branch pointer with the
fetched hash; equal means `updated=false` with no write, otherwise the
local branch ref is set to the remote hash and `updated=true`.
`fetched` bundles the fetch-plus-resolve of the remote-tracking ref:
`.error` is a transport failure or an unresolvable remote ref (both
wrapped errors in the source), `.ok h` is the freshly fetched hash. -/
def syncBranch (st : RepoState) (branch : String) (fetched : Except String Nat) :
    Except String (RepoState × Bool) :=
  match fetched with
  | .error e => .error ("fetching branch " ++ branch ++ ": " ++ e)
  | .ok h =>
    let st1 : RepoState := ⟨st.heads, setRef st.remotes branch h⟩
    match List.lookup branch st1.heads with
    | some localHash =>
      if localHash = h then
        .ok (st1, false)
      else
        .ok (⟨setRef st1.heads branch h, st1.remotes⟩, true)
    | none =>
      .ok (⟨setRef st1.heads branch h, st1.remotes⟩, true)

/-! ## Pruning engine (`pkg/gsync`)

The branch state for pruning is an association list from branch name
to the tip commit's committer timestamp (the only commit datum the
pruning code reads).  `deleteBranch` removes the local branch pointer;
it fails exactly when the branch is absent (the only way
`RemoveReference` fails on these inputs), and the removal of the
remote-tracking pointer — absence of which is not an error — does not
affect this state. -/

/-- The membership test used by deletion: is `branch` bound in `st`? -/
def containsName (st : List (String × Int)) (branch : String) : Bool :=
  st.any (fun p => p.1 == branch)

/-- Model of `deleteBranch`: remove the local branch ref; error (`none`) iff it
does not exist. -/
def deleteBranch (st : List (String × Int)) (branch : String) : Option (List (String × Int)) :=
  if containsName st branch then
    some (st.filter (fun p => !(p.1 == branch)))
  else
    none

/-- The protection guard at the top of both pruning loops:
`repo.Checkout != "" && branch == repo.Checkout`. -/
def isProtected (checkout branch : String) : Bool :=
  !(checkout == "") && (branch == checkout)

/-- One iteration of the `pruneBranches` loop over an obsolete branch:
checkout protection, then the `!opts.Prune` report-only case, then
dry-run accounting, then actual deletion (a failed deletion is logged
and skipped). -/
def pruneBranchesStep (checkout : String) (prune dryRun : Bool)
    (acc : List (String × Int) × List String) (branch : String) :
    List (String × Int) × List String :=
  if isProtected checkout branch then
    acc
  else if !prune then
    acc
  else if dryRun then
    (acc.1, acc.2 ++ [branch])
  else
    match deleteBranch acc.1 branch with
    | none => acc
    | some st' => (st', acc.2 ++ [branch])

/-- Model of `pruneBranches`: fold the step over the obsolete list, returning
the final branch state and the names appended to
`result.BranchesPruned`. -/
def pruneBranches (st : List (String × Int)) (checkout : String) (obsolete : List String)
    (prune dryRun : Bool) : List (String × Int) × List String :=
  obsolete.foldl (pruneBranchesStep checkout prune dryRun) (st, [])

/-- One iteration of the `pruneStaleBranches` loop: checkout
protection, dry-run accounting, actual deletion.  Unlike
`pruneBranchesStep` there is no `opts.Prune` test. -/
def pruneStaleBranchesStep (checkout : String) (dryRun : Bool)
    (acc : List (String × Int) × List String) (branch : String) :
    List (String × Int) × List String :=
  if isProtected checkout branch then
    acc
  else if dryRun then
    (acc.1, acc.2 ++ [branch])
  else
    match deleteBranch acc.1 branch with
    | none => acc
    | some st' => (st', acc.2 ++ [branch])

/-- Model of `pruneStaleBranches`: fold over the stale list. -/
def pruneStaleBranches (st : List (String × Int)) (checkout : String) (stale : List String)
    (dryRun : Bool) : List (String × Int) × List String :=
  stale.foldl (pruneStaleBranchesStep checkout dryRun) (st, [])

/-- Model of `findObsoleteBranches`: local branches matching no configured
pattern. -/
def findObsoleteBranches (st : List (String × Int)) (patterns : List Pattern) : List String :=
  (st.map Prod.fst).filter (fun name => !MatchesAny name patterns)

/-- Model of `findStaleBranches`: empty when `age == 0`; otherwise the local
branches that match a pattern and whose tip committer timestamp is
before `cutoff = now - age`. -/
def findStaleBranches (st : List (String × Int)) (patterns : List Pattern) (age now : Int) :
    List String :=
  if age = 0 then
    []
  else
    (st.filter (fun p => MatchesAny p.1 patterns && decide (p.2 < now - age))).map Prod.fst

/-- The post-sync pruning portion of `syncBranches`: compute the
obsolete branches and run `pruneBranches` unconditionally, then —
gated only on `opts.PruneStale`, not on `opts.Prune` — compute the
stale branches on the already-pruned state and run
`pruneStaleBranches`.  Returns the final state and the accumulated
`result.BranchesPruned`. -/
def syncBranchesPrunePhase (st : List (String × Int)) (patterns : List Pattern)
    (checkout : String) (prune pruneStale dryRun : Bool) (age now : Int) :
    List (String × Int) × List String :=
  let obsolete := findObsoleteBranches st patterns
  let afterObsolete := pruneBranches st checkout obsolete prune dryRun
  if pruneStale then
    let stale := findStaleBranches afterObsolete.1 patterns age now
    let afterStale := pruneStaleBranches afterObsolete.1 checkout stale dryRun
    (afterStale.1, afterObsolete.2 ++ afterStale.2)
  else
    afterObsolete

/-! ## Tag pruning (`handleObsoleteTags` in `pkg/gsync`) -/

/-- Model of `repo.DeleteTag`: remove an existing local tag; error (`none`) iff
it does not exist. -/
def deleteTag (tags : List String) (tag : String) : Option (List String) :=
  if tags.contains tag then
    some (tags.erase tag)
  else
    none

/-- Model of `handleObsoleteTags`: local tags matching no tag pattern are
obsolete; when `pruneTags` is set and there are any, each is either
counted (dry run) or deleted then counted (a failed deletion is logged
and skipped).  The `checkout` argument mirrors the `repoConfig`
parameter of the source: the function receives it but never reads it —
there is no checkout protection on the tag axis.  Returns the
remaining local tags, the obsolete list, and the pruned list. -/
def handleObsoleteTags (localTags : List String) (tagPatterns : List Pattern)
    (checkout : String) (pruneTags dryRun : Bool) :
    List String × List String × List String :=
  let obsolete := localTags.filter (fun t => !MatchesAny t tagPatterns)
  if pruneTags && !obsolete.isEmpty then
    let afterPrune := obsolete.foldl
      (fun (acc : List String × List String) tag =>
        if dryRun then
          (acc.1, acc.2 ++ [tag])
        else
          match deleteTag acc.1 tag with
          | none => acc
          | some ts => (ts, acc.2 ++ [tag]))
      (localTags, [])
    (afterPrune.1, obsolete, afterPrune.2)
  else
    (localTags, obsolete, [])

/-! ## Generic pruning helper (`PruneItems` in `pkg/gsync`) -/

/-- Model of `PruneItems`: the generic dry-run-aware deletion loop.  The Go
`deleteFunc` performs an effect and may fail; the model threads an
explicit state `σ` through it, `none` being failure (logged and
skipped). -/
def PruneItems {α σ : Type} (items : List α) (dryRun : Bool) (getName : α → String)
    (deleteFunc : σ → α → Option σ) (st : σ) : σ × List String :=
  items.foldl
    (fun acc item =>
      if dryRun then
        (acc.1, acc.2 ++ [getName item])
      else
        match deleteFunc acc.1 item with
        | none => acc
        | some st' => (st', acc.2 ++ [getName item]))
    (st, [])

/-! ## OpenVox stale-directory pruning (`pruneStaleOpenVoxDirs`) -/

/-- Model of `pruneStaleOpenVoxDirs`: returns immediately when `staleAge == 0`;
otherwise walks the sanitized→original map, protects the remote
default branch, looks up each directory's repository HEAD commit
timestamp (`dirs`; `none` models a missing directory, a non-repo
directory, or an unreadable HEAD — all skipped), and deletes
directories whose timestamp is before `now - staleAge` (dry run only
counts).  Both modes append the original name to
`result.BranchesStale` and `result.BranchesPruned`.  Returns the
remaining directories, the stale additions and the pruned
additions. -/
def pruneStaleOpenVoxDirs (activeNames : List (String × String)) (dirs : List (String × Int))
    (staleAge now : Int) (dryRun : Bool) (defaultBranch : String) :
    List (String × Int) × List String × List String :=
  if staleAge = 0 then
    (dirs, [], [])
  else
    activeNames.foldl
      (fun (acc : List (String × Int) × List String × List String) nm =>
        if nm.2 = defaultBranch then
          acc
        else
          match List.lookup nm.1 acc.1 with
          | none => acc
          | some t =>
            if t < now - staleAge then
              if dryRun then
                (acc.1, acc.2.1 ++ [nm.2], acc.2.2 ++ [nm.2])
              else
                (acc.1.filter (fun p => !(p.1 == nm.1)), acc.2.1 ++ [nm.2], acc.2.2 ++ [nm.2])
            else
              acc)
      (dirs, [], [])

/-! ## Helper lemmas -/

/-- Appending strings appends their character lists. -/
theorem data_append (a b : String) : (a ++ b).data = a.data ++ b.data :=
  rfl

/-- A collision message is never the empty string (it starts with a
quote character). -/
theorem collisionMsg_ne_empty (a b c : String) : collisionMsg a b c ≠ "" := by
  intro h
  have hdata : (collisionMsg a b c).data = [] := congrArg String.data h
  rw [collisionMsg, data_append] at hdata
  exact absurd hdata (by simp)

/-- The sanitizing character map is idempotent: an allowed character is
kept, and the replacement character is itself allowed. -/
theorem sanitizeChar_idem (c : Char) : sanitizeChar (sanitizeChar c) = sanitizeChar c := by
  by_cases h :
      (('a' ≤ c && c ≤ 'z') || ('A' ≤ c && c ≤ 'Z') || ('0' ≤ c && c ≤ '9') || c == '_') = true
  · simp only [sanitizeChar, if_pos h]
  · simp only [sanitizeChar, if_neg h]
    decide

/-- Filtering out one name's entries does not change lookups of a
different name. -/
theorem lookup_filter_ne (st : List (String × Int)) (b c : String) (hbc : b ≠ c) :
    List.lookup c (st.filter (fun p => !(p.1 == b))) = List.lookup c st := by
  induction st with
  | nil => rfl
  | cons e rest ih =>
    rcases e with ⟨k, v⟩
    by_cases hck : c = k
    · subst hck
      simp [List.filter_cons, List.lookup, Ne.symm hbc]
    · by_cases hkb : k = b
      · subst hkb
        simp [List.filter_cons, List.lookup, beq_false_of_ne hck, ih]
      · simp [List.filter_cons, List.lookup, beq_false_of_ne hck, hkb, ih]

/-- A name is contained in the pruning state iff it occurs among the
branch names. -/
theorem containsName_iff_mem (st : List (String × Int)) (b : String) :
    containsName st b = true ↔ b ∈ st.map Prod.fst := by
  simp [containsName, List.any_eq_true, List.mem_map]

/-- Deleting one branch's entry keeps every other name contained. -/
theorem containsName_filter (st : List (String × Int)) (b x : String) (hxb : x ≠ b)
    (hx : containsName st x = true) :
    containsName (st.filter (fun p => !(p.1 == b))) x = true := by
  rw [containsName, List.any_eq_true] at hx ⊢
  obtain ⟨p, hp, hpe⟩ := hx
  refine ⟨p, List.mem_filter.mpr ⟨hp, ?_⟩, hpe⟩
  have : p.1 = x := by simpa using hpe
  simp [this, hxb]

/-- With protection disabled on a branch (checkout set, name differs)
the `isProtected` guard is false, and conversely. -/
theorem isProtected_eq_false (checkout b : String) (hc : checkout ≠ "") :
    isProtected checkout b = false ↔ b ≠ checkout := by
  simp [isProtected, hc]

/-- The dry-run fold of `pruneBranches` (with `prune=true`) appends the
unprotected obsolete names and leaves the state alone. -/
theorem pruneBranches_fold_dry (checkout : String) (l : List String) :
    ∀ acc : List (String × Int) × List String,
      l.foldl (pruneBranchesStep checkout true true) acc
        = (acc.1, acc.2 ++ l.filter (fun b => !isProtected checkout b)) := by
  induction l with
  | nil => intro acc; simp
  | cons b rest ih =>
    intro acc
    rw [List.foldl_cons]
    by_cases hp : isProtected checkout b = true
    · rw [show pruneBranchesStep checkout true true acc b = acc from by
        simp [pruneBranchesStep, hp]]
      rw [ih acc]
      simp [List.filter_cons, hp]
    · rw [show pruneBranchesStep checkout true true acc b = (acc.1, acc.2 ++ [b]) from by
        simp [pruneBranchesStep, hp]]
      rw [ih (acc.1, acc.2 ++ [b])]
      simp [List.filter_cons, hp]

/-- The live fold of `pruneBranches` (with `prune=true`): when the
obsolete names are distinct and all present, every unprotected one is
deleted and reported, so the pruned output is the same as in dry
run. -/
theorem pruneBranches_fold_live (checkout : String) (l : List String) :
    ∀ (st : List (String × Int)) (pruned : List String),
      l.Nodup → (∀ b ∈ l, containsName st b = true) →
      (l.foldl (pruneBranchesStep checkout true false) (st, pruned)).2
        = pruned ++ l.filter (fun b => !isProtected checkout b) := by
  induction l with
  | nil => intro st pruned _ _; simp
  | cons b rest ih =>
    intro st pruned hnd hin
    obtain ⟨hb_notmem, hnd'⟩ := List.nodup_cons.mp hnd
    rw [List.foldl_cons]
    by_cases hp : isProtected checkout b = true
    · rw [show pruneBranchesStep checkout true false (st, pruned) b = (st, pruned) from by
        simp [pruneBranchesStep, hp]]
      rw [ih st pruned hnd' (fun x hx => hin x (List.mem_cons_of_mem _ hx))]
      simp [List.filter_cons, hp]
    · have hcb : containsName st b = true := hin b (List.mem_cons_self b rest)
      rw [show pruneBranchesStep checkout true false (st, pruned) b
          = (st.filter (fun p => !(p.1 == b)), pruned ++ [b]) from by
        simp [pruneBranchesStep, hp, deleteBranch, hcb]]
      rw [ih _ _ hnd' (fun x hx =>
        containsName_filter st b x (fun he => hb_notmem (he ▸ hx))
          (hin x (List.mem_cons_of_mem _ hx)))]
      simp [List.filter_cons, hp]

/-- The dry-run fold also never touches the state. -/
theorem pruneBranches_fold_dry_state (checkout : String) (l : List String)
    (acc : List (String × Int) × List String) :
    (l.foldl (pruneBranchesStep checkout true true) acc).1 = acc.1 := by
  rw [pruneBranches_fold_dry]

/-- With `prune=false` the `pruneBranches` step is the identity:
obsolete branches are only reported, never deleted or counted. -/
theorem pruneBranchesStep_prune_false (checkout : String) (dryRun : Bool)
    (acc : List (String × Int) × List String) (b : String) :
    pruneBranchesStep checkout false dryRun acc b = acc := by
  simp [pruneBranchesStep]

/-- With `prune=false`, `pruneBranches` deletes nothing and reports
nothing pruned. -/
theorem pruneBranches_prune_false (st : List (String × Int)) (checkout : String)
    (obsolete : List String) (dryRun : Bool) :
    pruneBranches st checkout obsolete false dryRun = (st, []) := by
  rw [pruneBranches]
  induction obsolete with
  | nil => rfl
  | cons b rest ih => rw [List.foldl_cons, pruneBranchesStep_prune_false, ih]

/-- Both pruning folds respect checkout protection: with a nonempty
checkout name, the checkout never enters the pruned list and its ref
entry is untouched.  Stated for `pruneBranchesStep`; the stale variant
is the `prune=true` instance via `pruneStaleStep_eq`. -/
theorem pruneBranches_fold_protect (checkout : String) (hc : checkout ≠ "")
    (prune dryRun : Bool) (l : List String) :
    ∀ acc : List (String × Int) × List String, checkout ∉ acc.2 →
      checkout ∉ (l.foldl (pruneBranchesStep checkout prune dryRun) acc).2
      ∧ List.lookup checkout (l.foldl (pruneBranchesStep checkout prune dryRun) acc).1
          = List.lookup checkout acc.1 := by
  induction l with
  | nil => intro acc hacc; exact ⟨hacc, rfl⟩
  | cons b rest ih =>
    intro acc hacc
    rw [List.foldl_cons]
    by_cases hp : isProtected checkout b = true
    · rw [show pruneBranchesStep checkout prune dryRun acc b = acc from by
        simp [pruneBranchesStep, hp]]
      exact ih acc hacc
    · have hp' : isProtected checkout b = false := by
        simpa using hp
      have hbc : b ≠ checkout := (isProtected_eq_false checkout b hc).mp hp'
      rcases acc with ⟨stA, prA⟩
      have hmem : checkout ∉ prA ++ [b] := by
        simp only [List.mem_append, List.mem_singleton]
        rintro (h | h)
        · exact hacc h
        · exact hbc h.symm
      cases prune with
      | false =>
        rw [pruneBranchesStep_prune_false]
        exact ih _ hacc
      | true =>
        cases dryRun with
        | true =>
          rw [show pruneBranchesStep checkout true true (stA, prA) b = (stA, prA ++ [b]) from by
            simp [pruneBranchesStep, hp]]
          exact ih (stA, prA ++ [b]) hmem
        | false =>
          by_cases hcb : containsName stA b = true
          · rw [show pruneBranchesStep checkout true false (stA, prA) b
                = (stA.filter (fun p => !(p.1 == b)), prA ++ [b]) from by
              simp [pruneBranchesStep, hp, deleteBranch, hcb]]
            obtain ⟨h1, h2⟩ := ih (stA.filter (fun p => !(p.1 == b)), prA ++ [b]) hmem
            exact ⟨h1, h2.trans (lookup_filter_ne stA b checkout hbc)⟩
          · rw [show pruneBranchesStep checkout true false (stA, prA) b = (stA, prA) from by
              simp [pruneBranchesStep, hp, deleteBranch, hcb]]
            exact ih _ hacc

/-- The stale-pruning step is the obsolete-pruning step with
`prune=true`: the two loops differ only in the missing `opts.Prune`
test. -/
theorem pruneStaleStep_eq (checkout : String) (dryRun : Bool)
    (acc : List (String × Int) × List String) (b : String) :
    pruneStaleBranchesStep checkout dryRun acc b = pruneBranchesStep checkout true dryRun acc b := by
  simp [pruneStaleBranchesStep, pruneBranchesStep]

/-- Folding the stale step equals folding the obsolete step with
`prune=true`. -/
theorem pruneStaleBranches_eq (st : List (String × Int)) (checkout : String)
    (stale : List String) (dryRun : Bool) :
    pruneStaleBranches st checkout stale dryRun = pruneBranches st checkout stale true dryRun := by
  rw [pruneStaleBranches, pruneBranches]
  congr 1

/-- Dry-run `PruneItems` counts every item's name and leaves the state
alone. -/
theorem PruneItems_dry {α σ : Type} (items : List α) (getName : α → String)
    (deleteFunc : σ → α → Option σ) (st : σ) :
    PruneItems items true getName deleteFunc st = (st, items.map getName) := by
  rw [PruneItems]
  suffices h : ∀ acc : σ × List String,
      items.foldl (fun acc item => (acc.1, acc.2 ++ [getName item])) acc
        = (acc.1, acc.2 ++ items.map getName) by
    simpa using h (st, [])
  induction items with
  | nil => intro acc; simp
  | cons a rest ih =>
    intro acc
    rw [List.foldl_cons, ih]
    simp

/-- Live `PruneItems` with a deletion function that never fails counts
exactly every item's name. -/
theorem PruneItems_live {α σ : Type} (items : List α) (getName : α → String)
    (deleteFunc : σ → α → Option σ) (hok : ∀ s a, deleteFunc s a ≠ none) (st : σ) :
    (PruneItems items false getName deleteFunc st).2 = items.map getName := by
  rw [PruneItems]
  suffices h : ∀ (s : σ) (pruned : List String),
      (items.foldl
        (fun acc item =>
          match deleteFunc acc.1 item with
          | none => acc
          | some st' => (st', acc.2 ++ [getName item])) (s, pruned)).2
        = pruned ++ items.map getName by
    simpa using h st []
  induction items with
  | nil => intro s pruned; simp
  | cons a rest ih =>
    intro s pruned
    rw [List.foldl_cons]
    cases hda : deleteFunc s a with
    | none => exact absurd hda (hok s a)
    | some s' =>
      simp only [hda]
      rw [ih s' (pruned ++ [getName a])]
      simp

/-! ## Claims -/

/-- Characterization of `detectCollisions`: a collision is reported
iff some name in the sequence sanitizes to a key that the map — as it
stands after processing the names before it — already binds to a
different original name. -/
theorem detectCollisions_iff (names : List String) :
    ∀ m, (detectCollisions names m).1 ≠ "" ↔
      ∃ pre x post, names = pre ++ x :: post ∧
        ∃ existing, List.lookup (SanitizeName x) (processNames pre m) = some existing
          ∧ existing ≠ x := by
  induction names with
  | nil =>
    intro m
    constructor
    · intro h
      exact absurd rfl h
    · rintro ⟨pre, x, post, hsplit, -⟩
      exact absurd hsplit (by cases pre <;> simp)
  | cons n rest ih =>
    intro m
    cases hl : List.lookup (SanitizeName n) m with
    | some existing =>
      by_cases he : existing = n
      · have hstep : detectCollisions (n :: rest) m
            = detectCollisions rest ((SanitizeName n, n) :: m) := by
          simp [detectCollisions, hl, he]
        rw [hstep, ih ((SanitizeName n, n) :: m)]
        constructor
        · rintro ⟨pre, x, post, hsplit, existing2, hlook, hne⟩
          exact ⟨n :: pre, x, post, by rw [hsplit]; rfl, existing2, hlook, hne⟩
        · rintro ⟨pre, x, post, hsplit, existing2, hlook, hne⟩
          cases pre with
          | nil =>
            rw [List.nil_append] at hsplit
            injection hsplit with h1 h2
            subst h1
            have hlook2 : List.lookup (SanitizeName n) m = some existing2 := hlook
            rw [hl] at hlook2
            injection hlook2 with h3
            exact absurd (h3 ▸ he) hne
          | cons p pre2 =>
            rw [List.cons_append] at hsplit
            injection hsplit with h1 h2
            subst h1
            exact ⟨pre2, x, post, h2, existing2, hlook, hne⟩
      · have hstep : detectCollisions (n :: rest) m
            = (collisionMsg existing n (SanitizeName n), m) := by
          simp [detectCollisions, hl, he]
        rw [hstep]
        constructor
        · intro _
          exact ⟨[], n, rest, rfl, existing, hl, he⟩
        · intro _
          exact collisionMsg_ne_empty existing n (SanitizeName n)
    | none =>
      have hstep : detectCollisions (n :: rest) m
          = detectCollisions rest ((SanitizeName n, n) :: m) := by
        simp [detectCollisions, hl]
      rw [hstep, ih ((SanitizeName n, n) :: m)]
      constructor
      · rintro ⟨pre, x, post, hsplit, existing2, hlook, hne⟩
        exact ⟨n :: pre, x, post, by rw [hsplit]; rfl, existing2, hlook, hne⟩
      · rintro ⟨pre, x, post, hsplit, existing2, hlook, hne⟩
        cases pre with
        | nil =>
          rw [List.nil_append] at hsplit
          injection hsplit with h1 h2
          subst h1
          have hlook2 : List.lookup (SanitizeName n) m = some existing2 := hlook
          rw [hl] at hlook2
          exact Option.noConfusion hlook2
        | cons p pre2 =>
          rw [List.cons_append] at hsplit
          injection hsplit with h1 h2
          subst h1
          exact ⟨pre2, x, post, h2, existing2, hlook, hne⟩

/-- Claim C3: collision detection reports a collision iff some name
sanitizes to a key already bound (by the processing of the names
before it) to a different original name; re-processing a name
identical to the one already bound is a no-op (no collision, and the
map is lookup-equivalent); in particular ["feature-1", "feature.1"]
collides and ["main", "main"] does not. -/
theorem claim_C3_collision_detection :
    (∀ (names : List String) (m : List (String × String)),
      (detectCollisions names m).1 ≠ "" ↔
        ∃ pre x post, names = pre ++ x :: post ∧
          ∃ existing, List.lookup (SanitizeName x) (processNames pre m) = some existing
            ∧ existing ≠ x)
    ∧ (∀ (name : String) (m : List (String × String)),
        List.lookup (SanitizeName name) m = some name →
        (detectCollisions [name] m).1 = ""
        ∧ ∀ k, List.lookup k (detectCollisions [name] m).2 = List.lookup k m)
    ∧ (detectCollisions ["feature-1", "feature.1"] []).1 ≠ ""
    ∧ (detectCollisions ["main", "main"] []).1 = "" := by
  refine ⟨fun names m => detectCollisions_iff names m, ?_, by decide, by decide⟩
  intro name m hl
  have hstep : detectCollisions [name] m = ("", (SanitizeName name, name) :: m) := by
    simp [detectCollisions, hl]
  rw [hstep]
  refine ⟨rfl, fun k => ?_⟩
  by_cases hk : k = SanitizeName name
  · subst hk
    simp [List.lookup, hl]
  · simp [List.lookup, beq_false_of_ne hk]

/-- Witness for C3: re-processing an already-bound identical name
reports no collision. -/
theorem claim_C3_witness :
    (detectCollisions ["main"] [("main", "main")]).1 = "" :=
  (claim_C3_collision_detection.2.1 "main" [("main", "main")] (by decide)).1

/-- Claim C5: for every repo, ref, and age, whenever the underlying
staleness check returns an error, the staleness evaluator returns
"not stale" (false) rather than "stale": an evaluation failure never
causes a ref to be treated as stale. -/
theorem claim_C5_isStale_fail_safe (localCommitTime : Option Int)
    (fetchResult : Except String (Option Int)) (now age : Int) (e : String)
    (herr : checkStaleness localCommitTime fetchResult now age = .error e) :
    IsStale localCommitTime fetchResult now age = false := by
  rw [IsStale, herr]

/-- Witness for C5: a transport failure on the depth-1 probe of a
commit absent locally makes `IsStale` answer `false`. -/
theorem claim_C5_witness : IsStale none (.error "network down") 0 0 = false :=
  claim_C5_isStale_fail_safe none (.error "network down") 0 0
    "fetching depth 1 for stale check: network down" rfl

/-- Claim C6: when the existing local branch pointer equals the freshly
fetched remote hash, `syncBranch` reports `updated=false` and performs
no write to the local branch ref; otherwise it sets the local branch
ref to the remote hash and reports `updated=true` (in both cases the
remote-tracking ref is force-updated by the fetch). -/
theorem claim_C6_syncBranch_idempotent (st : RepoState) (branch : String) (h : Nat) :
    (List.lookup branch st.heads = some h →
      syncBranch st branch (.ok h) = .ok (⟨st.heads, setRef st.remotes branch h⟩, false))
    ∧ (List.lookup branch st.heads ≠ some h →
      syncBranch st branch (.ok h)
        = .ok (⟨setRef st.heads branch h, setRef st.remotes branch h⟩, true)) := by
  constructor
  · intro hl
    simp [syncBranch, hl]
  · intro hl
    rw [syncBranch]
    cases hheads : List.lookup branch st.heads with
    | none => simp
    | some localHash =>
      have hne : localHash ≠ h := fun he => hl (he ▸ hheads)
      simp [hne]

/-- Witness for C6: an up-to-date branch is reported `updated=false`
with its head untouched; a branch at another hash is moved and
reported `updated=true`. -/
theorem claim_C6_witness :
    syncBranch ⟨[("main", 5)], []⟩ "main" (.ok 5)
      = .ok (⟨[("main", 5)], setRef [] "main" 5⟩, false)
    ∧ syncBranch ⟨[("main", 5)], []⟩ "main" (.ok 7)
      = .ok (⟨setRef [("main", 5)] "main" 7, setRef [] "main" 7⟩, true) :=
  ⟨(claim_C6_syncBranch_idempotent ⟨[("main", 5)], []⟩ "main" 5).1 (by decide),
   (claim_C6_syncBranch_idempotent ⟨[("main", 5)], []⟩ "main" 7).2 (by decide)⟩

/-- Claim C8: the sanitization function is pure and total (a Lean
function on all of `String`), maps each character through the
keep-or-underscore rule, is idempotent, and sends
"feature/my-branch" to "feature_my_branch" and "" to "". -/
theorem claim_C8_sanitize_idempotent :
    (∀ s, SanitizeName (SanitizeName s) = SanitizeName s)
    ∧ (∀ s, (SanitizeName s).data = s.data.map sanitizeChar)
    ∧ SanitizeName "feature/my-branch" = "feature_my_branch"
    ∧ SanitizeName "" = "" := by
  refine ⟨?_, fun s => rfl, by decide, by decide⟩
  intro s
  show String.mk ((s.data.map sanitizeChar).map sanitizeChar) = String.mk (s.data.map sanitizeChar)
  rw [List.map_map]
  exact congrArg String.mk (List.map_congr_left (fun c _ => sanitizeChar_idem c))

/-- Claim C9: when the configured staleness age threshold is zero, no
ref or directory is classified stale or stale-pruned:
`findStaleBranches` returns the empty list and
`pruneStaleOpenVoxDirs` leaves directories and result lists untouched,
regardless of the commit timestamps. -/
theorem claim_C9_zero_age_no_stale :
    (∀ (st : List (String × Int)) (patterns : List Pattern) (now : Int),
      findStaleBranches st patterns 0 now = [])
    ∧ (∀ (activeNames : List (String × String)) (dirs : List (String × Int)) (now : Int)
        (dryRun : Bool) (defaultBranch : String),
      pruneStaleOpenVoxDirs activeNames dirs 0 now dryRun defaultBranch = (dirs, [], [])) := by
  constructor
  · intro st patterns now
    simp [findStaleBranches]
  · intro activeNames dirs now dryRun defaultBranch
    simp [pruneStaleOpenVoxDirs]

/-- Claim C10: a pattern whose raw text is slash-delimited (recognized
as a regex) but whose regex has not been compiled matches nothing:
`Matches` returns false for every name. -/
theorem claim_C10_uncompiled_regex_matches_nothing (p : Pattern) (name : String)
    (hre : p.IsRegex = true) (hc : p.compiled = none) :
    p.Matches name = false := by
  have hne : p.raw ≠ "*" := by
    intro h
    rw [Pattern.IsRegex, h] at hre
    exact absurd hre (by decide)
  simp [Pattern.Matches, hne, hre, hc]

/-- Witness for C10: the uncompiled pattern "/abc/" matches nothing,
not even "abc". -/
theorem claim_C10_witness : Pattern.Matches ⟨"/abc/", none⟩ "abc" = false :=
  claim_C10_uncompiled_regex_matches_nothing ⟨"/abc/", none⟩ "abc" (by decide) rfl

/-- Claim C1 counterexample: with `pruneStale=true` and `prune=false`,
the pruning phase of `syncBranches` deletes a stale matching branch
and reports it pruned — the state loses the branch and the pruned list
is not empty, so stale-pruning does *not* require obsolescence-pruning
(confirmed by the repository's own `TestPruneStaleBranches`, which
runs with exactly these flags and expects the deletion). -/
theorem claim_C1_counterexample :
    syncBranchesPrunePhase [("old-branch", 0)] [⟨"*", none⟩] "" false true false 10 1000
      = ([], ["old-branch"])
    ∧ (syncBranchesPrunePhase [("old-branch", 0)] [⟨"*", none⟩] "" false true false 10 1000).2
      ≠ [] := by
  decide

/-- Claim C1 (amended): with `pruneStale=true` and `prune=false`,
obsolescence-pruning deletes nothing (obsolete branches are only
reported), but the stale-pruning pass still runs: the pruning phase is
exactly `pruneStaleBranches` on the stale set, and only the pre-sync
stale-skip condition requires both flags. -/
theorem claim_C1_amended (st : List (String × Int)) (patterns : List Pattern)
    (checkout : String) (dryRun : Bool) (age now : Int) :
    syncBranchesPrunePhase st patterns checkout false true dryRun age now
      = pruneStaleBranches st checkout (findStaleBranches st patterns age now) dryRun
    ∧ pruneBranches st checkout (findObsoleteBranches st patterns) false dryRun = (st, [])
    ∧ (∀ (localTags : List String) (tagPatterns : List Pattern) (chk : String) (dr : Bool),
        handleObsoleteTags localTags tagPatterns chk false dr
          = (localTags, localTags.filter (fun t => !MatchesAny t tagPatterns), []))
    ∧ (∀ staleVerdict, staleSkipCond true false staleVerdict = false) := by
  refine ⟨?_, pruneBranches_prune_false st checkout _ dryRun,
    fun localTags tagPatterns chk dr => by simp [handleObsoleteTags],
    fun v => by simp [staleSkipCond]⟩
  simp only [syncBranchesPrunePhase, pruneBranches_prune_false]
  simp

/-- Claim C2 counterexample: on the tag axis there is no checkout
protection — with checkout configured as "v1", a local tag "v1" that
matches no tag pattern is deleted by `handleObsoleteTags` and appears
in the pruned list. -/
theorem claim_C2_counterexample :
    "v1" ∈ (handleObsoleteTags ["v1"] [⟨"x", none⟩] "v1" true false).2.2
    ∧ (handleObsoleteTags ["v1"] [⟨"x", none⟩] "v1" true false).1 = [] := by
  decide

/-- Claim C2 (amended): checkout protection holds on the branch axis
only — with a nonempty checkout name, neither `pruneBranches` nor
`pruneStaleBranches` ever reports the checkout branch as pruned or
touches its ref entry; the tag axis (`handleObsoleteTags`) has no such
protection. -/
theorem claim_C2_amended (st : List (String × Int)) (checkout : String)
    (obsolete stale : List String) (prune dryRun : Bool) (hc : checkout ≠ "") :
    checkout ∉ (pruneBranches st checkout obsolete prune dryRun).2
    ∧ List.lookup checkout (pruneBranches st checkout obsolete prune dryRun).1
        = List.lookup checkout st
    ∧ checkout ∉ (pruneStaleBranches st checkout stale dryRun).2
    ∧ List.lookup checkout (pruneStaleBranches st checkout stale dryRun).1
        = List.lookup checkout st := by
  have h1 := pruneBranches_fold_protect checkout hc prune dryRun obsolete (st, []) (by simp)
  have h2 := pruneBranches_fold_protect checkout hc true dryRun stale (st, []) (by simp)
  rw [pruneStaleBranches_eq]
  exact ⟨h1.1, h1.2, h2.1, h2.2⟩

/-- Witness for the amended C2: a checkout branch that is listed
obsolete survives a live obsolescence prune. -/
theorem claim_C2_amended_witness :
    "keep" ∉ (pruneBranches [("keep", 0), ("old", 1)] "keep" ["keep", "old"] true false).2 :=
  (claim_C2_amended [("keep", 0), ("old", 1)] "keep" ["keep", "old"] [] true false (by decide)).1

/-- Claim C4: for a fixed input state, the pruned names under
`dryRun=true` equal the pruned (actually deleted) names under
`dryRun=false`, a dry run performs no state mutation, and the generic
`PruneItems` helper has the same property whenever its deletion
function cannot fail. -/
theorem claim_C4_dry_run_equivalence (st : List (String × Int)) (patterns : List Pattern)
    (checkout : String) (hnd : (st.map Prod.fst).Nodup) :
    (pruneBranches st checkout (findObsoleteBranches st patterns) true true).2
      = (pruneBranches st checkout (findObsoleteBranches st patterns) true false).2
    ∧ (pruneBranches st checkout (findObsoleteBranches st patterns) true true).1 = st
    ∧ (∀ {α σ : Type} (items : List α) (getName : α → String)
        (deleteFunc : σ → α → Option σ), (∀ s a, deleteFunc s a ≠ none) → ∀ s : σ,
        (PruneItems items true getName deleteFunc s).2
          = (PruneItems items false getName deleteFunc s).2
        ∧ (PruneItems items true getName deleteFunc s).1 = s) := by
  have hobs_nodup : (findObsoleteBranches st patterns).Nodup := hnd.filter _
  have hobs_mem : ∀ b ∈ findObsoleteBranches st patterns, containsName st b = true := by
    intro b hb
    rw [containsName_iff_mem]
    exact List.mem_of_mem_filter hb
  refine ⟨?_, ?_, ?_⟩
  · rw [pruneBranches, pruneBranches, pruneBranches_fold_dry,
      pruneBranches_fold_live checkout _ st [] hobs_nodup hobs_mem]
  · rw [pruneBranches, pruneBranches_fold_dry]
  · intro α σ items getName deleteFunc hok s
    refine ⟨?_, ?_⟩
    · rw [PruneItems_dry, PruneItems_live items getName deleteFunc hok s]
    · rw [PruneItems_dry]

/-- Witness for C4: on a two-branch state where only "old" is
obsolete, the dry-run pruned list equals the live pruned list. -/
theorem claim_C4_witness :
    (pruneBranches [("main", 0), ("old", 1)] ""
        (findObsoleteBranches [("main", 0), ("old", 1)] [⟨"main", none⟩]) true true).2
      = (pruneBranches [("main", 0), ("old", 1)] ""
        (findObsoleteBranches [("main", 0), ("old", 1)] [⟨"main", none⟩]) true false).2 :=
  (claim_C4_dry_run_equivalence [("main", 0), ("old", 1)] [⟨"main", none⟩] "" (by decide)).1

/-- Claim C7: the matcher returns true iff at least one spec matches; a
literal spec matches only the exactly equal name; the wildcard "*"
matches every name; a slash-delimited spec matches per its compiled
regex; and the ill-formed delimiter pairs "/" and "//" are not
recognized as regexes (hence fall through to literal matching). -/
theorem claim_C7_matcher_semantics :
    (∀ (name : String) (patterns : List Pattern),
      MatchesAny name patterns = true ↔ ∃ p ∈ patterns, p.Matches name = true)
    ∧ (∀ (p : Pattern) (name : String), p.raw = "*" → p.Matches name = true)
    ∧ (∀ (p : Pattern) (name : String) (re : String → Bool),
        p.IsRegex = true → p.compiled = some re → p.Matches name = re name)
    ∧ (∀ (p : Pattern) (name : String), p.raw ≠ "*" → p.IsRegex = false →
        (p.Matches name = true ↔ p.raw = name))
    ∧ Pattern.IsRegex ⟨"/", none⟩ = false
    ∧ Pattern.IsRegex ⟨"//", none⟩ = false := by
  refine ⟨?_, ?_, ?_, ?_, by decide, by decide⟩
  · intro name patterns
    simp [MatchesAny, List.any_eq_true]
  · intro p name hw
    simp [Pattern.Matches, hw]
  · intro p name re hre hc
    have hne : p.raw ≠ "*" := by
      intro h
      rw [Pattern.IsRegex, h] at hre
      exact absurd hre (by decide)
    simp [Pattern.Matches, hne, hre, hc]
  · intro p name hne hre
    simp [Pattern.Matches, hne, hre]

/-- Witness for C7: the wildcard matches an arbitrary name, a compiled
regex pattern consults its regex, and a mismatched literal does not
match. -/
theorem claim_C7_witness :
    Pattern.Matches ⟨"*", none⟩ "release-1.0" = true
    ∧ Pattern.Matches ⟨"/abc/", some (fun _ => true)⟩ "zzz" = true
    ∧ (Pattern.Matches ⟨"main", none⟩ "develop" = true ↔ ("main" : String) = "develop") :=
  ⟨claim_C7_matcher_semantics.2.1 ⟨"*", none⟩ "release-1.0" rfl,
   claim_C7_matcher_semantics.2.2.1 ⟨"/abc/", some (fun _ => true)⟩ "zzz" (fun _ => true)
     (by decide) rfl,
   claim_C7_matcher_semantics.2.2.2.1 ⟨"main", none⟩ "develop" (by decide) (by decide)⟩

end Gfetch
